import Mathlib

/-!
Verification of the affiliate-automation worklist engine.

The Python source under verification consists of a URL normalizer
(`ProductManager.clean_url`), a durable worklist store
(`ProductManager.load_products` / `ProductManager.update_product_status`) and
the polling progress engine (`main`).  Every definition below is a direct
shallow embedding of the corresponding Python code; Python strings are
modeled as `List Char`, pandas cells as `Cell`, spreadsheet rows as `Row`,
and the external world (scraper, Telegram, file I/O) as oracle streams in
`Env` consumed by call counters in `Cnt`.
-/

namespace Affiliate

/-! ## Python string primitives -/

/-- Hexadecimal digit value, as accepted by `urllib.parse.unquote`. -/
def hexVal (c : Char) : Option Nat :=
  if '0' ≤ c ∧ c ≤ '9' then some (c.toNat - 48)
  else if 'a' ≤ c ∧ c ≤ 'f' then some (c.toNat - 87)
  else if 'A' ≤ c ∧ c ≤ 'F' then some (c.toNat - 55)
  else none

/-- Percent-decoding as in `urllib.parse.unquote`: a `%` followed by two hex
digits becomes the character with that code, an ill-formed escape is kept
literally, everything else is copied.  (Escapes are decoded byte-wise; the
multi-byte UTF-8 fusion that CPython additionally performs for codes ≥ 0x80
is not modeled — no claim depends on it, and on `%`-free input both versions
are the identity.) -/
def pyUnquote : List Char → List Char
  | [] => []
  | [c] => [c]
  | [c, a] => [c, a]
  | c :: a :: b :: rest =>
    if c = '%' then
      match hexVal a, hexVal b with
      | some x, some y => Char.ofNat (16 * x + y) :: pyUnquote rest
      | _, _ => c :: pyUnquote (a :: b :: rest)
    else c :: pyUnquote (a :: b :: rest)

/-- The ASCII whitespace characters removed by Python's `str.strip()`. -/
def pyIsSpace (c : Char) : Bool :=
  c = ' ' || c = '\t' || c = '\n' || c = '\r' || c = Char.ofNat 11 || c = Char.ofNat 12

/-- Python `str.strip()`: drop whitespace from both ends. -/
def pyStrip (l : List Char) : List Char :=
  ((l.dropWhile pyIsSpace).reverse.dropWhile pyIsSpace).reverse

/-- Python's `in` operator on strings: substring containment. -/
def pyContains (pat : List Char) : List Char → Bool
  | [] => pat.isEmpty
  | c :: rest => pat.isPrefixOf (c :: rest) || pyContains pat rest

/-- Fuel-indexed worker for `pySplit`: each step consumes one character of
fuel, and a separator match additionally drops `sep.length - 1` characters,
so any `fuel ≥ s.length` gives the same, fuel-independent answer. -/
def pySplitF (sep : List Char) : Nat → List Char → List (List Char)
  | _, [] => [[]]
  | 0, s => [s]
  | fuel + 1, c :: rest =>
    if sep.isPrefixOf (c :: rest) ∧ sep ≠ [] then
      [] :: pySplitF sep fuel (List.drop (sep.length - 1) rest)
    else
      let r := pySplitF sep fuel rest
      (c :: r.headD []) :: r.tail

/-- Python `str.split(sep)` for a non-empty separator: leftmost,
non-overlapping splitting.  (Python raises on an empty separator; the code
under verification only ever splits on non-empty literals, for which the
`sep ≠ []` guard is vacuous.) -/
def pySplit (sep s : List Char) : List (List Char) := pySplitF sep s.length s

/-- The text strictly before the first occurrence of `pat` (the whole list
when there is no occurrence); this is `split(pat)[0]` in Python. -/
def beforeFirst (pat : List Char) : List Char → List Char
  | [] => []
  | c :: rest =>
    if pat.isPrefixOf (c :: rest) then []
    else c :: beforeFirst pat rest

/-- The text strictly after the first occurrence of `pat` (empty when there
is no occurrence). -/
def afterFirst (pat : List Char) : List Char → List Char
  | [] => []
  | c :: rest =>
    if pat.isPrefixOf (c :: rest) then List.drop pat.length (c :: rest)
    else afterFirst pat rest

/-- UTF-8 encoding of one character, as a list of byte values. -/
def utf8Bytes (c : Char) : List Nat :=
  let n := c.toNat
  if n < 128 then [n]
  else if n < 2048 then [192 + n / 64, 128 + n % 64]
  else if n < 65536 then [224 + n / 4096, 128 + n / 64 % 64, 128 + n % 64]
  else [240 + n / 262144, 128 + n / 4096 % 64, 128 + n / 64 % 64, 128 + n % 64]

/-- Upper-case hexadecimal digit, as produced by `urllib.parse.quote`. -/
def hexDigit (n : Nat) : Char :=
  if n < 10 then Char.ofNat (48 + n) else Char.ofNat (55 + n)

/-- Characters that `urllib.parse.quote` leaves unencoded with the default
`safe='/'`: ASCII alphanumerics, `_.-~` and `/`. -/
def quoteSafe (c : Char) : Bool :=
  (c.isAlphanum && c.toNat < 128) || c = '_' || c = '.' || c = '-' || c = '~' || c = '/'

/-- Percent-encoding of one byte value. -/
def quoteByte (b : Nat) : List Char :=
  let c := Char.ofNat b
  if b < 128 && quoteSafe c then [c]
  else ['%', hexDigit (b / 16), hexDigit (b % 16)]

/-- `urllib.parse.quote` with the default `safe='/'`: percent-encode the
UTF-8 bytes of every unsafe character. -/
def pyQuote (l : List Char) : List Char :=
  (l.map (fun c => ((utf8Bytes c).map quoteByte).flatten)).flatten

/-! ## The URL normalizer — `ProductManager.clean_url` in `src/main.py` -/

/-- A pandas cell: missing (`NaN`), a string, or some other value (carrying
its `str()` rendering). -/
inductive Cell where
  | na : Cell
  | str : String → Cell
  | nonstr : String → Cell
deriving DecidableEq, Repr

/-- Whether a cell is missing, as tested by `DataFrame.dropna`. -/
def Cell.isNa : Cell → Bool
  | .na => true
  | _ => false

/-- The `str()` rendering of a cell (`str(float('nan'))` is `"nan"`). -/
def Cell.asStr : Cell → String
  | .na => "nan"
  | .str s => s
  | .nonstr r => r

/-- The body of `clean_url` on a string value (`src/main.py` lines 38-53):
decode and strip, then rebuild `https://www.amazon.in/dp/{product_id}` when
the string contains `/dp/`, else re-root a path containing `amazon.in/`,
else reject with the empty string. -/
def cleanUrlChars (url0 : List Char) : List Char :=
  let url := pyStrip (pyUnquote url0)
  if pyContains "/dp/".toList url then
    let product_id :=
      (pySplit ['?']
        ((pySplit ['/'] ((pySplit "/dp/".toList url).getD 1 [])).headD [])).headD []
    "https://www.amazon.in/dp/".toList ++ product_id
  else if pyContains "amazon.in".toList url then
    let base_url := pySplit "amazon.in/".toList url
    if base_url.length > 1 then
      let path :=
        pyStrip ((pySplit [':'] ((pySplit ['?'] (base_url.getD 1 [])).headD [])).headD [])
      "https://www.amazon.in/".toList ++ pyQuote path
    else []
  else []

/-- `ProductManager.clean_url` (`src/main.py` lines 32-53), including the
`isinstance(url, str)` guard: non-string input is rejected with `""`. -/
def cleanUrl : Cell → String
  | Cell.str s => (cleanUrlChars s.toList).asString
  | _ => ""

/-- Spec-side product id: the substring after the first `/dp/` up to the
next `/` or `?`.  Stated with `takeWhile` over `afterFirst`, independently
of the `split`-chain the source uses. -/
def specPid (s : List Char) : List Char :=
  (afterFirst "/dp/".toList s).takeWhile (fun c => !(c == '/') && !(c == '?'))

/-! ## The Fetcher's URL preparation — `AmazonScraper.get_product_details`,
`src/amazon_scraper.py` lines 33-45 -/

/-- Scheme detection as in `urllib.parse.urlparse`: a scheme is present when
the text before the first `:` is non-empty, starts with an ASCII letter and
consists of letters, digits and `+-.` only; it is returned lower-cased. -/
def urlScheme (s : List Char) : List Char :=
  if pyContains [':'] s then
    let pre := beforeFirst [':'] s
    if pre ≠ [] ∧ (pre.headD 'a').isAlpha ∧
        pre.all (fun c => c.isAlphanum || c = '+' || c = '-' || c = '.') then
      pre.map Char.toLower
    else []
  else []

/-- Python `str.lstrip('/')`. -/
def lstripSlash (l : List Char) : List Char := l.dropWhile (fun c => c = '/')

/-- The address the Fetcher actually requests (`src/amazon_scraper.py`
lines 33-45): decode and strip, prefix the canonical origin when the string
has no scheme, then rebuild the minimal `/dp/` path when a product id is
present. -/
def scraperTargetUrl (u : String) : String :=
  let c := pyStrip (pyUnquote u.toList)
  let c := if urlScheme c = [] then "https://www.amazon.in/".toList ++ lstripSlash c else c
  if pyContains "/dp/".toList c then
    let product_id := (pySplit ['/'] ((pySplit "/dp/".toList c).getD 1 [])).headD []
    ("https://www.amazon.in/dp/".toList ++ product_id).asString
  else c.asString

/-! ## The WorkItem store — `ProductManager` in `src/main.py` and
`src/product_manager.py` -/

/-- A work item (`Product` dataclass): equality is field-wise, exactly as
Python's dataclass `==`. -/
structure Product where
  amazon_url : String
  affiliate_link : String
  posted : Bool
deriving DecidableEq, Repr

/-- One spreadsheet row as read by `pd.read_excel`.  `posted = none` models
a missing/NaN completion flag, which `load_products` fills with `False`. -/
structure Row where
  amazon_url : Cell
  affiliate_link : Cell
  posted : Option Bool
deriving DecidableEq, Repr

/-- The `Product(...)` constructor call in `load_products`:
`str(row['amazon_url'])`, `str(row['affiliate_link'])`,
`bool(row['posted'])` after the NaN fill. -/
def toProduct (r : Row) : Product :=
  { amazon_url := r.amazon_url.asStr
    affiliate_link := r.affiliate_link.asStr
    posted := r.posted.getD false }

/-- `df['amazon_url'] = df['amazon_url'].apply(self.clean_url)`. -/
def cleanRow (r : Row) : Row := { r with amazon_url := Cell.str (cleanUrl r.amazon_url) }

/-- The body of `ProductManager.load_products` on successfully read rows
(`src/main.py` lines 58-80): drop rows with a missing url or link, clean the
urls, drop rows whose cleaned url is empty, and build the `Product` list. -/
def loadProducts (rows : List Row) : List Product :=
  let df := rows.filter (fun r => !r.amazon_url.isNa && !r.affiliate_link.isNa)
  let df := df.map cleanRow
  let df := df.filter (fun r => r.amazon_url.asStr != "")
  df.map toProduct

/-- `ProductManager.load_products` including its `try/except`: `none` models
`pd.read_excel` (or anything else in the body) raising, in which case the
handler sets `self.products = []`; the function itself never raises. -/
def loadOutcome (res : Option (List Row)) : List Product :=
  match res with
  | none => []
  | some rows => loadProducts rows

/-- `df.loc[index, 'posted'] = True` on the freshly read rows, for an
in-range index.  (For an out-of-range label pandas would append a new row;
the engine only ever passes indices of loaded products, and every claim
exercises the in-range case, so the out-of-range case is modeled as a
no-op.) -/
def markPosted (rows : List Row) (index : Nat) : List Row :=
  match rows.get? index with
  | some r => rows.set index { r with posted := some true }
  | none => rows

/-- The `except` handler of `update_product_status`: revert the in-memory
flag when `0 <= index < len(self.products)`. -/
def revertPosted (ps : List Product) (index : Nat) : List Product :=
  if index < ps.length then
    match ps.get? index with
    | some p => ps.set index { p with posted := false }
    | none => ps
  else ps

/-- `product.posted = True` in `main` (line 306): the iterated object is
the element at the computed index, so the write is modeled through that
index (a no-op when the index is out of range). -/
def setMemPosted (ps : List Product) (index : Nat) : List Product :=
  match ps.get? index with
  | some p => ps.set index { p with posted := true }
  | none => ps

/-! ## The progress engine — `main` in `src/main.py` -/

/-- Outcome of one `get_product_details` call: a returned
`(title, image_url)` pair of optionally-`None` strings, or an exception
escaping the call. -/
inductive FetchOut where
  | ret : Option String → Option String → FetchOut
  | raise : FetchOut
deriving DecidableEq, Repr

/-- Outcome of one `post_product` call: a returned boolean or an exception
escaping the call. -/
inductive NotifyOut where
  | ret : Bool → NotifyOut
  | raise : NotifyOut
deriving DecidableEq, Repr

/-- The external world, as oracle streams indexed by call count: scraper
calls, Telegram calls, `pd.read_excel` outcomes and `to_excel` outcomes. -/
structure Env where
  fetch : Nat → FetchOut
  notify : Nat → NotifyOut
  readOk : Nat → Bool
  writeOk : Nat → Bool

/-- Call counters for the four oracle streams. -/
structure Cnt where
  fetch : Nat
  notify : Nat
  read : Nat
  write : Nat
deriving DecidableEq, Repr

/-- The engine-visible state: the durable spreadsheet contents and the
in-memory `self.products` list. -/
structure PMState where
  durable : List Row
  products : List Product
deriving DecidableEq, Repr

/-- Observable events of a run: Fetcher invocations, Notifier invocations
and the designed delays (10 = retry backoff, 60 = inter-item, 300 = idle). -/
inductive Ev where
  | fetch : Product → Ev
  | notify : Product → Ev
  | sleep : Nat → Ev
deriving DecidableEq, Repr

/-- Python truthiness of an optional string: `None` and `""` are falsy;
this is the `if not title or not image_url` test in `main`. -/
def falsy : Option String → Bool
  | none => true
  | some s => s.isEmpty

/-- `ProductManager.update_product_status` (`src/product_manager.py` lines
67-80): read the spreadsheet, set the flag, write it back; on a read or
write failure the handler reverts the in-memory flag and the durable store
is unchanged (the write is modeled as atomic). -/
def updateProductStatus (env : Env) (st : PMState) (cnt : Cnt) (index : Nat) :
    PMState × Cnt :=
  let cnt1 : Cnt := { cnt with read := cnt.read + 1 }
  if env.readOk cnt.read then
    let df := markPosted st.durable index
    let cnt2 : Cnt := { cnt1 with write := cnt1.write + 1 }
    if env.writeOk cnt1.write then
      ({ st with durable := df }, cnt2)
    else
      ({ st with products := revertPosted st.products index }, cnt2)
  else
    ({ st with products := revertPosted st.products index }, cnt1)

/-- A `self.load_products()` call during the run: on a successful read the
in-memory list is rebuilt from the durable rows, on a failed read it is set
to `[]`; the previous in-memory list is discarded either way. -/
def reloadProducts (env : Env) (st : PMState) (cnt : Cnt) : PMState × Cnt :=
  let res := if env.readOk cnt.read then some st.durable else none
  ({ st with products := loadOutcome res }, { cnt with read := cnt.read + 1 })

/-- Result of processing: final state, final counters, emitted events, and
for the retry loop whether the success `break` was taken. -/
structure StepRes where
  st : PMState
  cnt : Cnt
  trace : List Ev
  posted : Bool
deriving Repr

/-- The `for attempt in range(3)` retry loop for one item (`src/main.py`
lines 288-319), over the list of remaining attempt numbers.  Each iteration
calls the Fetcher; a raised exception or a falsy title/image consumes the
attempt (with a 10-unit backoff unless it was the last attempt); otherwise
the Notifier is called, and on success the status is persisted, the
in-memory flag set, the store reloaded, and the loop breaks. -/
def attemptStep (env : Env) (product : Product) (index : Nat) :
    List Nat → PMState → Cnt → StepRes
  | [], st, cnt => ⟨st, cnt, [], false⟩
  | attempt :: rest, st, cnt =>
    let backoff : List Ev := if attempt < 2 then [Ev.sleep 10] else []
    let cnt1 : Cnt := { cnt with fetch := cnt.fetch + 1 }
    match env.fetch cnt.fetch with
    | FetchOut.raise =>
      let r := attemptStep env product index rest st cnt1
      ⟨r.st, r.cnt, Ev.fetch product :: backoff ++ r.trace, r.posted⟩
    | FetchOut.ret title image =>
      if falsy title || falsy image then
        let r := attemptStep env product index rest st cnt1
        ⟨r.st, r.cnt, Ev.fetch product :: backoff ++ r.trace, r.posted⟩
      else
        let cnt2 : Cnt := { cnt1 with notify := cnt1.notify + 1 }
        match env.notify cnt1.notify with
        | NotifyOut.raise =>
          let r := attemptStep env product index rest st cnt2
          ⟨r.st, r.cnt, Ev.fetch product :: Ev.notify product :: backoff ++ r.trace, r.posted⟩
        | NotifyOut.ret false =>
          let r := attemptStep env product index rest st cnt2
          ⟨r.st, r.cnt, Ev.fetch product :: Ev.notify product :: backoff ++ r.trace, r.posted⟩
        | NotifyOut.ret true =>
          let u := updateProductStatus env st cnt2 index
          let st2 : PMState := { u.1 with products := setMemPosted u.1.products index }
          let rl := reloadProducts env st2 u.2
          ⟨rl.1, rl.2, [Ev.fetch product, Ev.notify product], true⟩

/-- Python `list.index(x)`: the index of the first element equal to `x`, or
`none` where Python raises `ValueError`. -/
def pyIndexOf : List Product → Product → Option Nat
  | [], _ => none
  | q :: rest, p => if q = p then some 0 else (pyIndexOf rest p).map (· + 1)

/-- Result of a pass (or of a whole run): `aborted` records that an
exception escaped the per-item code and reached the outer handler, ending
the `while True` loop. -/
structure PassRes where
  st : PMState
  cnt : Cnt
  trace : List Ev
  aborted : Bool
deriving Repr

/-- The `for product in unposted_products` walk (`src/main.py` lines
284-322).  The index lookup `product_manager.products.index(product)` at
line 285 sits outside the per-attempt `try`, so when it raises the
exception propagates to the outer handler and the whole loop ends
(`aborted = true`); otherwise the item gets its retry loop and the 60-unit
inter-item delay, and processing continues with the next item. -/
def processPending (env : Env) : List Product → PMState → Cnt → PassRes
  | [], st, cnt => ⟨st, cnt, [], false⟩
  | product :: rest, st, cnt =>
    match pyIndexOf st.products product with
    | none => ⟨st, cnt, [], true⟩
    | some index =>
      let r := attemptStep env product index [0, 1, 2] st cnt
      let r2 := processPending env rest r.st r.cnt
      ⟨r2.st, r2.cnt, r.trace ++ Ev.sleep 60 :: r2.trace, r2.aborted⟩

/-- `n` iterations of the `while True` polling loop (`src/main.py` lines
275-327): build the pending set from the in-memory flags, walk it, then
wait the 300-unit idle interval and reload the store from its durable
source.  An aborted pass ends the run immediately, as in the source, where
the exception reaches the outer handler and `main` returns. -/
def runPasses (env : Env) : Nat → PMState → Cnt → PassRes
  | 0, st, cnt => ⟨st, cnt, [], false⟩
  | n + 1, st, cnt =>
    let pending := st.products.filter (fun p => !p.posted)
    let pr := processPending env pending st cnt
    if pr.aborted then pr
    else
      let rl := reloadProducts env pr.st pr.cnt
      let rr := runPasses env n rl.1 rl.2
      ⟨rr.st, rr.cnt, pr.trace ++ Ev.sleep 300 :: rr.trace, rr.aborted⟩

/-! ## Concrete fixtures used in witnesses and counterexamples -/

/-- Default row used with `List.getD`. -/
def defRow : Row := ⟨Cell.na, Cell.na, none⟩

/-- Default product used with `List.getD`; its flag is `true` so that an
out-of-range read can never fake an unposted item. -/
def defProduct : Product := ⟨"", "", true⟩

/-- Zeroed call counters, the state at process start. -/
def cnt0 : Cnt := ⟨0, 0, 0, 0⟩

/-- A loaded, pending work item. -/
def pW1 : Product := ⟨"https://www.amazon.in/dp/A", "LA", false⟩

/-- A second loaded, pending work item. -/
def pW2 : Product := ⟨"https://www.amazon.in/dp/B", "LB", false⟩

/-- The spreadsheet row behind `pW1`. -/
def rW1 : Row := ⟨Cell.str "https://www.amazon.in/dp/A", Cell.str "LA", some false⟩

/-- The spreadsheet row behind `pW2`. -/
def rW2 : Row := ⟨Cell.str "https://www.amazon.in/dp/B", Cell.str "LB", some false⟩

/-- A two-item store with both items pending. -/
def stW : PMState := ⟨[rW1, rW2], [pW1, pW2]⟩

/-- A world where every scrape returns no details and everything else
succeeds. -/
def envNoDetails : Env :=
  ⟨fun _ => FetchOut.ret none none, fun _ => NotifyOut.ret true,
   fun _ => true, fun _ => true⟩

/-- A world where every scrape raises an exception. -/
def envAllRaise : Env :=
  ⟨fun _ => FetchOut.raise, fun _ => NotifyOut.ret true,
   fun _ => true, fun _ => true⟩

/-- A world mixing every per-attempt failure mode: the first fetch of each
item raises, the second returns no title, the third succeeds so that the
notify call is reached — and every notify call raises. -/
def envMixedFail : Env :=
  ⟨fun n => if n % 3 == 0 then FetchOut.raise
    else if n % 3 == 1 then FetchOut.ret none (some "I")
    else FetchOut.ret (some "T") (some "I"),
   fun _ => NotifyOut.raise, fun _ => true, fun _ => true⟩

/-- A world where fetch and notify succeed, the first spreadsheet read
(the status update's read) succeeds, and every later read fails — so the
reload performed right after a successful post raises. -/
def envReloadFails : Env :=
  ⟨fun _ => FetchOut.ret (some "T") (some "I"), fun _ => NotifyOut.ret true,
   fun n => n == 0, fun _ => true⟩

/-- A world where fetch and notify succeed, reads succeed, and every
durable write fails. -/
def envWriteFails : Env :=
  ⟨fun _ => FetchOut.ret (some "T") (some "I"), fun _ => NotifyOut.ret true,
   fun _ => true, fun _ => false⟩

/-- A fully cooperative world: everything succeeds. -/
def envAllOk : Env :=
  ⟨fun _ => FetchOut.ret (some "T") (some "I"), fun _ => NotifyOut.ret true,
   fun _ => true, fun _ => true⟩

/-! ## Lemmas about the string primitives -/

theorem isPrefixOf_self_append (p l : List Char) : p.isPrefixOf (p ++ l) = true := by
  induction p with
  | nil => simp [List.isPrefixOf]
  | cons c cs ih => simp [List.isPrefixOf, ih]

theorem eq_append_drop_of_isPrefixOf {p l : List Char} (h : p.isPrefixOf l = true) :
    l = p ++ List.drop p.length l := by
  induction p generalizing l with
  | nil => simp
  | cons c cs ih =>
    cases l with
    | nil => simp [List.isPrefixOf] at h
    | cons d rest =>
      simp only [List.isPrefixOf, Bool.and_eq_true, beq_iff_eq] at h
      obtain ⟨rfl, h2⟩ := h
      simpa using ih h2

theorem isPrefixOf_append_left {pat as : List Char} (t : List Char)
    (h : pat.length ≤ as.length) : pat.isPrefixOf (as ++ t) = pat.isPrefixOf as := by
  induction pat generalizing as with
  | nil => simp [List.isPrefixOf]
  | cons c cs ih =>
    cases as with
    | nil => simp at h
    | cons d rest =>
      simp only [List.cons_append, List.isPrefixOf, List.append_eq]
      rw [ih (by simpa using h)]

theorem pyContains_append_self (a pat b : List Char) :
    pyContains pat (a ++ pat ++ b) = true := by
  induction a with
  | nil =>
    cases pat with
    | nil => cases b <;> simp [pyContains, List.isPrefixOf, List.isEmpty]
    | cons c cs =>
      simp only [List.nil_append, List.cons_append, pyContains, Bool.or_eq_true]
      exact Or.inl (by simp [isPrefixOf_self_append (c :: cs) b])
  | cons x xs ih =>
    simp only [List.cons_append, pyContains, Bool.or_eq_true]
    exact Or.inr ih

theorem mem_of_pyContains {c : Char} {cs l : List Char}
    (h : pyContains (c :: cs) l = true) : c ∈ l := by
  induction l with
  | nil => simp [pyContains, List.isEmpty] at h
  | cons d rest ih =>
    simp only [pyContains, Bool.or_eq_true] at h
    rcases h with h | h
    · simp only [List.isPrefixOf, Bool.and_eq_true, beq_iff_eq] at h
      exact h.1 ▸ List.mem_cons_self _ _
    · exact List.mem_cons_of_mem _ (ih h)

theorem beforeFirst_of_not_contains {pat l : List Char} (h : pyContains pat l = false) :
    beforeFirst pat l = l := by
  induction l with
  | nil => rfl
  | cons c rest ih =>
    simp only [pyContains, Bool.or_eq_false_iff] at h
    simp [beforeFirst, h.1, ih h.2]

theorem beforeFirst_append_afterFirst {pat l : List Char} (h : pyContains pat l = true) :
    beforeFirst pat l ++ pat ++ afterFirst pat l = l := by
  induction l with
  | nil => cases pat <;> simp_all [pyContains, List.isEmpty, beforeFirst, afterFirst]
  | cons c rest ih =>
    by_cases hp : pat.isPrefixOf (c :: rest) = true
    · simp only [beforeFirst, afterFirst, hp, if_true, List.nil_append]
      exact (eq_append_drop_of_isPrefixOf hp).symm
    · have h' : pyContains pat rest = true := by
        simp only [pyContains, Bool.or_eq_true] at h
        rcases h with h | h
        · exact absurd h hp
        · exact h
      simp only [beforeFirst, afterFirst, hp, if_false, Bool.false_eq_true,
        List.cons_append]
      rw [ih h']

theorem takeWhile_beforeFirst {p : Char → Bool} {c : Char} (cs : List Char)
    (hc : p c = false) (l : List Char) :
    (beforeFirst (c :: cs) l).takeWhile p = l.takeWhile p := by
  induction l with
  | nil => rfl
  | cons d rest ih =>
    by_cases hp : (c :: cs).isPrefixOf (d :: rest) = true
    · have hd : c = d := by
        have hp2 := hp
        simp only [List.isPrefixOf, Bool.and_eq_true, beq_iff_eq] at hp2
        exact hp2.1
      rw [beforeFirst, if_pos hp]
      simp [List.takeWhile_cons, ← hd, hc]
    · rw [beforeFirst, if_neg hp]
      simp only [List.takeWhile_cons]
      cases hpd : p d with
      | true => simp [ih]
      | false => rfl

theorem takeWhile_and (p q : Char → Bool) (l : List Char) :
    (l.takeWhile q).takeWhile p = l.takeWhile (fun a => q a && p a) := by
  induction l with
  | nil => rfl
  | cons c rest ih =>
    cases hq : q c with
    | false => simp [List.takeWhile, hq]
    | true =>
      cases hp : p c with
      | false => simp [List.takeWhile, hq, hp]
      | true => simp [List.takeWhile, hq, hp, ih]

theorem pySplitF_ne_nil (sep : List Char) (fuel : Nat) (s : List Char) :
    pySplitF sep fuel s ≠ [] := by
  cases s with
  | nil => cases fuel <;> simp [pySplitF]
  | cons c rest =>
    cases fuel with
    | zero => simp [pySplitF]
    | succ f =>
      rw [pySplitF]
      split <;> simp

theorem pySplit_ne_nil (sep s : List Char) : pySplit sep s ≠ [] :=
  pySplitF_ne_nil sep s.length s

theorem pySplitF_fuel_irrel (sep : List Char) :
    ∀ f1 f2 s, s.length ≤ f1 → s.length ≤ f2 →
      pySplitF sep f1 s = pySplitF sep f2 s := by
  intro f1
  induction f1 with
  | zero =>
    intro f2 s h1 _
    have : s = [] := List.length_eq_zero.mp (Nat.le_zero.mp h1)
    subst this
    cases f2 <;> rfl
  | succ g1 ih =>
    intro f2 s h1 h2
    cases s with
    | nil => cases f2 <;> rfl
    | cons c rest =>
      cases f2 with
      | zero => simp at h2
      | succ g2 =>
        rw [pySplitF, pySplitF]
        simp only [List.length_cons] at h1 h2
        by_cases hp : sep.isPrefixOf (c :: rest) = true ∧ sep ≠ []
        · rw [if_pos hp, if_pos hp]
          have hd : (List.drop (sep.length - 1) rest).length ≤ g1 := by
            rw [List.length_drop]; omega
          have hd2 : (List.drop (sep.length - 1) rest).length ≤ g2 := by
            rw [List.length_drop]; omega
          rw [ih g2 _ hd hd2]
        · rw [if_neg hp, if_neg hp]
          have hr : rest.length ≤ g1 := by omega
          have hr2 : rest.length ≤ g2 := by omega
          rw [ih g2 rest hr hr2]

theorem pySplitF_headD {sep : List Char} (hs : sep ≠ []) :
    ∀ fuel s, s.length ≤ fuel →
      (pySplitF sep fuel s).headD [] = beforeFirst sep s := by
  intro fuel
  induction fuel with
  | zero =>
    intro s h
    have : s = [] := List.length_eq_zero.mp (Nat.le_zero.mp h)
    subst this
    rfl
  | succ f ih =>
    intro s h
    cases s with
    | nil => rfl
    | cons c rest =>
      simp only [List.length_cons] at h
      by_cases hp : sep.isPrefixOf (c :: rest) = true
      · rw [pySplitF, if_pos ⟨hp, hs⟩, beforeFirst, if_pos hp]
        rfl
      · rw [pySplitF, if_neg (by simp [hp]), beforeFirst, if_neg hp]
        have hne := pySplitF_ne_nil sep f rest
        cases hr : pySplitF sep f rest with
        | nil => exact absurd hr hne
        | cons b t =>
          have := ih rest (by omega)
          rw [hr] at this
          simp only [List.headD_cons] at this ⊢
          simp [this]

theorem pySplit_headD {sep : List Char} (hs : sep ≠ []) (s : List Char) :
    (pySplit sep s).headD [] = beforeFirst sep s :=
  pySplitF_headD hs s.length s (Nat.le_refl _)

theorem pySplit_eq_cons {sep : List Char} (hs : sep ≠ []) {s : List Char}
    (h : pyContains sep s = true) :
    pySplit sep s = beforeFirst sep s :: pySplit sep (afterFirst sep s) := by
  suffices hgen : ∀ fuel s, s.length ≤ fuel → pyContains sep s = true →
      pySplitF sep fuel s = beforeFirst sep s :: pySplit sep (afterFirst sep s) by
    exact hgen s.length s (Nat.le_refl _) h
  intro fuel
  induction fuel with
  | zero =>
    intro s hlen hc
    have : s = [] := List.length_eq_zero.mp (Nat.le_zero.mp hlen)
    subst this
    cases sep with
    | nil => exact absurd rfl hs
    | cons a as => simp [pyContains, List.isEmpty] at hc
  | succ f ih =>
    intro s hlen hc
    cases s with
    | nil =>
      cases sep with
      | nil => exact absurd rfl hs
      | cons a as => simp [pyContains, List.isEmpty] at hc
    | cons c rest =>
      simp only [List.length_cons] at hlen
      by_cases hp : sep.isPrefixOf (c :: rest) = true
      · obtain ⟨a, as, rfl⟩ : ∃ a as, sep = a :: as := by
          cases sep with
          | nil => exact absurd rfl hs
          | cons a as => exact ⟨a, as, rfl⟩
        rw [pySplitF, if_pos ⟨hp, hs⟩, afterFirst, if_pos hp, beforeFirst, if_pos hp]
        simp only [List.length_cons, Nat.add_sub_cancel, List.drop_succ_cons]
        rw [pySplit]
        rw [pySplitF_fuel_irrel (a :: as) f (List.drop as.length rest).length _
          (by rw [List.length_drop]; omega) (Nat.le_refl _)]
      · have h' : pyContains sep rest = true := by
          simp only [pyContains, Bool.or_eq_true] at hc
          rcases hc with hc | hc
          · exact absurd hc hp
          · exact hc
        rw [pySplitF, if_neg (by simp [hp]), beforeFirst, if_neg hp, afterFirst,
          if_neg hp]
        rw [ih rest (by omega) h']
        simp

theorem getD_one_eq_headD (x : List Char) (L : List (List Char)) :
    (x :: L).getD 1 [] = L.headD [] := by
  cases L <;> simp [List.getD_cons_succ, List.getD_cons_zero]

/-- When the only occurrence of `pat` within `pre ++ pat` is the final one,
`afterFirst` over `pre ++ pat ++ t` returns exactly `t`, for every tail `t`. -/
theorem afterFirst_append {pre pat : List Char} (t : List Char) (hp : pat ≠ [])
    (h : ∀ i, i < pre.length → pat.isPrefixOf ((pre ++ pat).drop i) = false) :
    afterFirst pat (pre ++ (pat ++ t)) = t := by
  induction pre with
  | nil =>
    obtain ⟨a, as, rfl⟩ : ∃ a as, pat = a :: as := by
      cases pat with
      | nil => exact absurd rfl hp
      | cons a as => exact ⟨a, as, rfl⟩
    have hc : (a :: as).isPrefixOf (a :: (as ++ t)) = true :=
      isPrefixOf_self_append (a :: as) t
    rw [List.nil_append, List.cons_append, afterFirst, if_pos hc]
    rw [← List.cons_append]
    exact List.drop_left (a :: as) t
  | cons x pre' ih =>
    have h0 : pat.isPrefixOf ((x :: pre') ++ pat) = false := by
      have := h 0 (by simp)
      rwa [List.drop_zero] at this
    have hlen : pat.length ≤ ((x :: pre') ++ pat).length := by
      rw [List.length_append]
      omega
    have hcond : pat.isPrefixOf (x :: (pre' ++ (pat ++ t))) = false := by
      have : pat.isPrefixOf ((x :: pre') ++ (pat ++ t)) = false := by
        rw [← List.append_assoc, isPrefixOf_append_left t hlen, h0]
      exact this
    rw [List.cons_append, afterFirst,
      if_neg (ne_of_eq_of_ne hcond Bool.false_ne_true)]
    exact ih (fun i hi => by
      have := h (i + 1) (by simp only [List.length_cons]; omega)
      rwa [List.cons_append, List.drop_succ_cons] at this)

/-- `unquote` is the identity on `%`-free text. -/
theorem pyUnquote_of_not_mem : ∀ {l : List Char}, ('%' : Char) ∉ l → pyUnquote l = l
  | [], _ => rfl
  | [_], _ => rfl
  | [_, _], _ => rfl
  | c :: a :: b :: rest, h => by
    have hc : c ≠ '%' := fun hc => h (hc ▸ List.mem_cons_self _ _)
    have hr : ('%' : Char) ∉ a :: b :: rest := fun hr => h (List.mem_cons_of_mem _ hr)
    rw [pyUnquote, if_neg hc, pyUnquote_of_not_mem hr]

/-- `strip` is the identity when neither end is whitespace. -/
theorem pyStrip_of_ends {l : List Char}
    (h1 : pyIsSpace (l.headD 'a') = false)
    (h2 : pyIsSpace (l.getLastD 'a') = false) : pyStrip l = l := by
  cases l with
  | nil => rfl
  | cons c rest =>
    rw [pyStrip]
    rw [List.headD_cons] at h1
    rw [List.dropWhile_cons, if_neg (by simp [h1])]
    have hrev : (c :: rest).reverse ≠ [] := by simp
    cases hr : (c :: rest).reverse with
    | nil => exact absurd hr hrev
    | cons d ds =>
      have hlast : (c :: rest).getLast? = some d := by
        rw [List.getLast?_eq_head?_reverse, hr, List.head?_cons]
      have hd : pyIsSpace d = false := by
        rw [List.getLastD_eq_getLast?, hlast] at h2
        exact h2
      rw [List.dropWhile_cons, if_neg (by simp [hd]), ← hr, List.reverse_reverse]

theorem asString_append (a b : List Char) : (a ++ b).asString = a.asString ++ b.asString :=
  rfl

theorem beforeFirst_single (c : Char) (l : List Char) :
    beforeFirst [c] l = l.takeWhile (fun d => !(d == c)) := by
  induction l with
  | nil => rfl
  | cons d rest ih =>
    by_cases h : c = d
    · subst h
      rw [beforeFirst, if_pos (by simp [List.isPrefixOf]), List.takeWhile_cons]
      simp
    · have hdc : (d == c) = false := beq_eq_false_iff_ne.mpr (Ne.symm h)
      rw [beforeFirst, if_neg (by simp [List.isPrefixOf, h]), List.takeWhile_cons]
      simp [hdc, ih]

/-- A list whose every element survives mapping to the canonical-origin
form: appending under `/dp/`. -/
theorem asString_origin_dp (p : List Char) :
    ∃ s, ("https://www.amazon.in/dp/".toList ++ p).asString =
      "https://www.amazon.in/" ++ s := by
  refine ⟨("dp/".toList ++ p).asString, ?_⟩
  rw [show ("https://www.amazon.in/dp/".toList : List Char) =
    "https://www.amazon.in/".toList ++ "dp/".toList from rfl]
  rw [List.append_assoc, asString_append]
  rfl

theorem asString_origin_any (p : List Char) :
    ∃ s, ("https://www.amazon.in/".toList ++ p).asString =
      "https://www.amazon.in/" ++ s := by
  refine ⟨p.asString, ?_⟩
  rw [asString_append]
  rfl

/-- The `split`-chain the source uses to extract the product id computes the
substring after the first `/dp/` up to the next `/` or `?`. -/
theorem pid_eq_specPid {url : List Char}
    (h : pyContains "/dp/".toList url = true) :
    (pySplit ['?']
        ((pySplit ['/'] ((pySplit "/dp/".toList url).getD 1 [])).headD [])).headD []
      = specPid url := by
  have hs : ("/dp/".toList : List Char) ≠ [] := by decide
  rw [pySplit_eq_cons hs h, getD_one_eq_headD, pySplit_headD hs]
  rw [pySplit_headD (by decide : (['/'] : List Char) ≠ [])]
  rw [pySplit_headD (by decide : (['?'] : List Char) ≠ [])]
  rw [beforeFirst_single, beforeFirst_single]
  have hdp : ("/dp/".toList : List Char) = '/' :: ['d', 'p', '/'] := rfl
  rw [hdp, takeWhile_beforeFirst ['d', 'p', '/'] (by decide)]
  rw [takeWhile_and]
  rfl

/-- The `/dp/` branch of `clean_url`: whenever the decoded, stripped string
contains `/dp/`, the result is the canonical origin plus `/dp/` plus the
product id. -/
theorem cleanUrl_dp {u : String}
    (h : pyContains "/dp/".toList (pyStrip (pyUnquote u.toList)) = true) :
    cleanUrl (Cell.str u) =
      ("https://www.amazon.in/dp/".toList ++ specPid (pyStrip (pyUnquote u.toList))).asString := by
  show (cleanUrlChars u.toList).asString = _
  rw [cleanUrlChars]
  simp only [h, if_true]
  rw [pid_eq_specPid h]

/-- Every `clean_url` result is empty or anchored at the canonical origin. -/
theorem cleanUrl_shape (c : Cell) :
    cleanUrl c = "" ∨ ∃ s, cleanUrl c = "https://www.amazon.in/" ++ s := by
  cases c with
  | na => exact Or.inl rfl
  | nonstr r => exact Or.inl rfl
  | str u =>
    have hb : cleanUrl (Cell.str u) = (cleanUrlChars u.toList).asString := rfl
    rw [hb, cleanUrlChars]
    cases h1 : pyContains "/dp/".toList (pyStrip (pyUnquote u.toList)) with
    | true =>
      simp only [if_true]
      exact Or.inr (asString_origin_dp _)
    | false =>
      simp only [Bool.false_eq_true, if_false]
      cases h2 : pyContains "amazon.in".toList (pyStrip (pyUnquote u.toList)) with
      | true =>
        simp only [if_true]
        by_cases h3 :
            (pySplit "amazon.in/".toList (pyStrip (pyUnquote u.toList))).length > 1
        · rw [if_pos h3]
          exact Or.inr (asString_origin_any _)
        · rw [if_neg h3]
          exact Or.inl rfl
      | false =>
        simp only [Bool.false_eq_true, if_false]
        exact Or.inl rfl

/-- Every product the loader hands to the engine carries an origin-anchored
address. -/
theorem loadProducts_mem_origin {rows : List Row} {p : Product}
    (hp : p ∈ loadProducts rows) :
    ∃ s, p.amazon_url = "https://www.amazon.in/" ++ s := by
  rw [loadProducts] at hp
  simp only [List.mem_map, List.mem_filter] at hp
  obtain ⟨r, ⟨hr, hne⟩, rfl⟩ := hp
  obtain ⟨r0, _, rfl⟩ := hr
  have hshape := cleanUrl_shape r0.amazon_url
  rcases hshape with hshape | ⟨s, hshape⟩
  · rw [cleanRow] at hne
    simp only [toProduct, Cell.asStr] at hne
    rw [hshape] at hne
    simp at hne
  · rw [cleanRow]
    simp only [toProduct, Cell.asStr]
    exact ⟨s, hshape⟩

theorem getLastD_append {a b : List Char} (d : Char) (hb : b ≠ []) :
    (a ++ b).getLastD d = b.getLastD d := by
  rw [List.getLastD_eq_getLast?, List.getLastD_eq_getLast?, List.getLast?_append]
  cases hg : b.getLast? with
  | none => exact absurd (List.getLast?_eq_none_iff.mp hg) hb
  | some x => rfl

/-! ## Claim theorems: the URL normalizer (C5, C6, C7, C10) -/

/-- C5: for every raw string whose percent-decoded, trimmed form contains
the product-id segment `/dp/`, `clean_url` discards everything except the
product id and returns exactly the canonical origin + `/dp/` + product_id,
where product_id is the substring after the first `/dp/` up to the next `/`
or `?` (the `specPid` characterization). -/
theorem c5_dp_normalization (u : String)
    (h : pyContains "/dp/".toList (pyStrip (pyUnquote u.toList)) = true) :
    cleanUrl (Cell.str u) =
      ("https://www.amazon.in/dp/".toList ++
        specPid (pyStrip (pyUnquote u.toList))).asString :=
  cleanUrl_dp h

/-- Witness for C5 at the decorated URL of the spec's example: the
hypothesis holds and the decorated address normalizes to the bare
product-id form. -/
theorem c5_dp_normalization_witness :
    cleanUrl (Cell.str "https://www.amazon.in/dp/B001ABCXYZ/ref=foo?x=1") =
      ("https://www.amazon.in/dp/".toList ++
        specPid (pyStrip (pyUnquote
          "https://www.amazon.in/dp/B001ABCXYZ/ref=foo?x=1".toList))).asString ∧
    cleanUrl (Cell.str "https://www.amazon.in/dp/B001ABCXYZ/ref=foo?x=1") =
      "https://www.amazon.in/dp/B001ABCXYZ" :=
  ⟨c5_dp_normalization "https://www.amazon.in/dp/B001ABCXYZ/ref=foo?x=1" (by decide),
   by decide⟩

/-- C6 counterexample: `"widgetpro"` decodes and trims to a non-empty,
scheme-less string that contains neither `/dp/` nor the site origin, and
the normalizer `clean_url` returns the Invalid value `""` for it — not an
origin-prefixed address.  The claim as stated is false for `clean_url`. -/
theorem c6_counterexample :
    pyStrip (pyUnquote "widgetpro".toList) ≠ [] ∧
    urlScheme (pyStrip (pyUnquote "widgetpro".toList)) = [] ∧
    cleanUrl (Cell.str "widgetpro") = "" :=
  ⟨by decide, by decide, by decide⟩

/-- C6 amended: origin-prefixing of scheme-less strings happens in the
Fetcher's URL preparation (`get_product_details`), whose request address is
always origin-prefixed for scheme-less input; the normalizer `clean_url`
itself returns Invalid (`""`) for a scheme-less string that contains
neither `/dp/` nor `amazon.in`. -/
theorem c6_schemeless_origin (u : String)
    (h : urlScheme (pyStrip (pyUnquote u.toList)) = []) :
    (∃ s, scraperTargetUrl u = "https://www.amazon.in/" ++ s) ∧
    (pyContains "/dp/".toList (pyStrip (pyUnquote u.toList)) = false →
      pyContains "amazon.in".toList (pyStrip (pyUnquote u.toList)) = false →
      cleanUrl (Cell.str u) = "") := by
  constructor
  · rw [scraperTargetUrl]
    simp only [h, if_true, if_pos]
    cases hdp : pyContains "/dp/".toList
        ("https://www.amazon.in/".toList ++ lstripSlash (pyStrip (pyUnquote u.toList))) with
    | true =>
      simp only [if_true]
      exact asString_origin_dp _
    | false =>
      simp only [Bool.false_eq_true, if_false]
      exact asString_origin_any _
  · intro hdp hain
    show (cleanUrlChars u.toList).asString = ""
    rw [cleanUrlChars]
    simp only [hdp, hain, Bool.false_eq_true, if_false]
    rfl

/-- Witness for C6's amended theorem at the counterexample input. -/
theorem c6_schemeless_origin_witness :
    (∃ s, scraperTargetUrl "widgetpro" = "https://www.amazon.in/" ++ s) ∧
    (pyContains "/dp/".toList (pyStrip (pyUnquote "widgetpro".toList)) = false →
      pyContains "amazon.in".toList (pyStrip (pyUnquote "widgetpro".toList)) = false →
      cleanUrl (Cell.str "widgetpro") = "") :=
  c6_schemeless_origin "widgetpro" (by decide)

/-- C7 counterexample: the product id `"B1 "` is non-empty and contains no
`/`, `?` or percent-escape — so the claim's hypotheses admit it — yet the
canonical address built from it is not a fixed point of `clean_url`: the
trailing whitespace is stripped. -/
theorem c7_counterexample :
    ("B1 ".toList ≠ [] ∧ ('/' : Char) ∉ "B1 ".toList ∧
      ('?' : Char) ∉ "B1 ".toList ∧ ('%' : Char) ∉ "B1 ".toList) ∧
    cleanUrl (Cell.str ("https://www.amazon.in/dp/" ++ "B1 ")) =
      "https://www.amazon.in/dp/B1" ∧
    "https://www.amazon.in/dp/B1" ≠ "https://www.amazon.in/dp/" ++ "B1 " :=
  ⟨by decide, by decide, by decide⟩

/-- C7 amended: the round trip holds for canonical addresses
`origin ++ "/dp/" ++ pid` where `pid` is non-empty, contains no `/`, `?` or
`%`, and additionally does not end in a whitespace character (which `strip`
would remove). -/
theorem c7_roundtrip (pid : List Char) (h1 : pid ≠ [])
    (h2 : ('/' : Char) ∉ pid) (h3 : ('?' : Char) ∉ pid) (h4 : ('%' : Char) ∉ pid)
    (h5 : pyIsSpace (pid.getLastD 'a') = false) :
    cleanUrl (Cell.str ("https://www.amazon.in/dp/" ++ pid.asString)) =
      "https://www.amazon.in/dp/" ++ pid.asString := by
  have htl : ("https://www.amazon.in/dp/" ++ pid.asString).toList =
      "https://www.amazon.in/dp/".toList ++ pid := by
    simp only [String.toList, String.data_append]
    rfl
  have hq : pyUnquote ("https://www.amazon.in/dp/".toList ++ pid) =
      "https://www.amazon.in/dp/".toList ++ pid := by
    apply pyUnquote_of_not_mem
    intro hmem
    rcases List.mem_append.mp hmem with hmem | hmem
    · exact absurd hmem (by decide)
    · exact h4 hmem
  have hst : pyStrip ("https://www.amazon.in/dp/".toList ++ pid) =
      "https://www.amazon.in/dp/".toList ++ pid := by
    apply pyStrip_of_ends
    · rw [show ("https://www.amazon.in/dp/".toList ++ pid : List Char) =
        'h' :: ("ttps://www.amazon.in/dp/".toList ++ pid) from rfl]
      rw [List.headD_cons]
      decide
    · rw [getLastD_append _ h1]
      exact h5
  have hsplit : ("https://www.amazon.in/dp/".toList ++ pid : List Char) =
      "https://www.amazon.in".toList ++ ("/dp/".toList ++ pid) := rfl
  have hcontains : pyContains "/dp/".toList
      (pyStrip (pyUnquote ("https://www.amazon.in/dp/" ++ pid.asString).toList)) = true := by
    rw [htl, hq, hst, hsplit, ← List.append_assoc]
    exact pyContains_append_self "https://www.amazon.in".toList "/dp/".toList pid
  rw [cleanUrl_dp hcontains, htl, hq, hst]
  have hafter : afterFirst "/dp/".toList
      ("https://www.amazon.in/dp/".toList ++ pid) = pid := by
    rw [hsplit]
    exact afterFirst_append pid (by decide) (by decide)
  rw [specPid, hafter]
  have htake : pid.takeWhile (fun c => !(c == '/') && !(c == '?')) = pid := by
    apply List.takeWhile_eq_self_iff.mpr
    intro x hx
    have hx2 : x ≠ '/' := fun he => h2 (he ▸ hx)
    have hx3 : x ≠ '?' := fun he => h3 (he ▸ hx)
    simp [hx2, hx3]
  rw [htake, asString_append]
  rfl

/-- Witness for C7's amended round trip at a plain product id. -/
theorem c7_roundtrip_witness :
    cleanUrl (Cell.str ("https://www.amazon.in/dp/" ++ ("B001ABCXYZ".toList).asString)) =
      "https://www.amazon.in/dp/" ++ ("B001ABCXYZ".toList).asString :=
  c7_roundtrip "B001ABCXYZ".toList (by decide) (by decide) (by decide) (by decide)
    (by decide)

/-- C10: for every input value whatsoever — string or not — `clean_url`
returns either `""` (Invalid) or a string anchored at
`https://www.amazon.in/`; consequently every address in the loaded store is
origin-anchored. -/
theorem c10_output_invariant :
    (∀ c : Cell, cleanUrl c = "" ∨ ∃ s, cleanUrl c = "https://www.amazon.in/" ++ s) ∧
    (∀ (rows : List Row) (p : Product), p ∈ loadProducts rows →
      ∃ s, p.amazon_url = "https://www.amazon.in/" ++ s) :=
  ⟨cleanUrl_shape, fun _ _ hp => loadProducts_mem_origin hp⟩

/-- Witness for C10 at a loaded one-row store. -/
theorem c10_output_invariant_witness :
    ∃ s, (toProduct (cleanRow rW1)).amazon_url = "https://www.amazon.in/" ++ s :=
  c10_output_invariant.2 [rW1] (toProduct (cleanRow rW1)) (by decide)

/-! ## Claim theorems: the WorkItem store (C8, C9) -/

theorem set_get?_self {α : Type _} (l : List α) (i : Nat) (r : α)
    (h : l.get? i = some r) : l.set i r = l := by
  induction l generalizing i with
  | nil => simp at h
  | cons x xs ih =>
    cases i with
    | zero =>
      simp only [List.get?_cons_zero, Option.some.injEq] at h
      rw [List.set_cons_zero, h]
    | succ n =>
      simp only [List.get?_cons_succ] at h
      rw [List.set_cons_succ, ih n h]

/-- Marking an already-completed row leaves the durable rows unchanged. -/
theorem markPosted_of_true {rows : List Row} {index : Nat} {r : Row}
    (h : rows.get? index = some r) (hp : r.posted = some true) :
    markPosted rows index = rows := by
  simp only [markPosted, h]
  have heq : { r with posted := some true } = r := by
    cases r
    simp only at hp
    rw [hp]
  rw [heq]
  exact set_get?_self rows index r h

/-- The completion-marking write on the durable rows is idempotent. -/
theorem markPosted_idem (rows : List Row) (index : Nat) :
    markPosted (markPosted rows index) index = markPosted rows index := by
  cases h : rows.get? index with
  | none => simp only [markPosted, h]
  | some r =>
    have hlt : index < rows.length := by
      rw [List.get?_eq_getElem?] at h
      exact (List.getElem?_eq_some_iff.mp h).1
    simp only [markPosted, h]
    have h2 : (rows.set index { r with posted := some true }).get? index =
        some { r with posted := some true } := by
      rw [List.get?_eq_getElem?]
      exact List.getElem?_set_self (by simpa using hlt)
    rw [h2]
    simp only [List.set_set]

/-- C8: for an in-range index whose durable row is already marked
completed, and a read and write that succeed, `update_product_status`
leaves the durable store unchanged (same rows, same length, flag stays
true) and the in-memory list untouched; moreover the durable
completion-marking write is idempotent in general. -/
theorem c8_update_idempotent (env : Env) (st : PMState) (cnt : Cnt) (index : Nat)
    (r : Row) (hr : st.durable.get? index = some r) (hp : r.posted = some true)
    (hread : env.readOk cnt.read = true) (hwrite : env.writeOk cnt.write = true) :
    (updateProductStatus env st cnt index).1.durable = st.durable ∧
    (updateProductStatus env st cnt index).1.products = st.products ∧
    (∀ rows i, markPosted (markPosted rows i) i = markPosted rows i) := by
  refine ⟨?_, ?_, markPosted_idem⟩
  · simp only [updateProductStatus, hread, hwrite, if_true]
    exact markPosted_of_true hr hp
  · simp only [updateProductStatus, hread, hwrite, if_true]

/-- Witness for C8: marking the already-completed first row of a one-row
store again changes nothing. -/
theorem c8_update_idempotent_witness :
    (updateProductStatus envAllOk
        ⟨[⟨Cell.str "https://www.amazon.in/dp/A", Cell.str "LA", some true⟩], []⟩
        cnt0 0).1.durable =
      [⟨Cell.str "https://www.amazon.in/dp/A", Cell.str "LA", some true⟩] :=
  (c8_update_idempotent envAllOk
    ⟨[⟨Cell.str "https://www.amazon.in/dp/A", Cell.str "LA", some true⟩], []⟩
    cnt0 0 ⟨Cell.str "https://www.amazon.in/dp/A", Cell.str "LA", some true⟩
    (by decide) (by decide) (by decide) (by decide)).1

/-- C9: `load_products` never raises — every read outcome, including a
failure, yields a normal return — and on any load failure the in-memory
list is set to `[]`; the result never depends on the previously loaded
in-memory worklist, which is silently discarded. -/
theorem c9_load_failure_resets :
    loadOutcome none = [] ∧
    (∀ env st cnt, env.readOk cnt.read = false →
      (reloadProducts env st cnt).1.products = []) ∧
    (∀ env st st' cnt, st.durable = st'.durable →
      (reloadProducts env st cnt).1.products = (reloadProducts env st' cnt).1.products) := by
  refine ⟨rfl, ?_, ?_⟩
  · intro env st cnt h
    simp [reloadProducts, h, loadOutcome]
  · intro env st st' cnt h
    simp only [reloadProducts, h]

/-- Witness for C9: a failing reload resets a non-empty in-memory list to
`[]`, discarding it. -/
theorem c9_load_failure_resets_witness :
    (reloadProducts envReloadFails ⟨[rW1], [pW1]⟩ ⟨0, 0, 1, 0⟩).1.products = [] :=
  c9_load_failure_resets.2.1 envReloadFails ⟨[rW1], [pW1]⟩ ⟨0, 0, 1, 0⟩ (by decide)

/-! ## Lemmas about the progress engine -/

/-- Every event the retry loop emits for an item is a fetch of that item, a
notification of that item, or the 10-unit backoff. -/
theorem attemptStep_trace_sub (env : Env) (product : Product) (index : Nat) :
    ∀ (l : List Nat) (st : PMState) (cnt : Cnt),
      (attemptStep env product index l st cnt).trace ⊆
        [Ev.fetch product, Ev.notify product, Ev.sleep 10] := by
  intro l
  induction l with
  | nil =>
    intro st cnt
    simp [attemptStep]
  | cons attempt rest ih =>
    intro st cnt
    simp only [attemptStep]
    split
    · dsimp only
      refine List.cons_subset.mpr ⟨by simp, List.append_subset.mpr ⟨?_, ih st _⟩⟩
      split <;> simp
    · split
      · dsimp only
        refine List.cons_subset.mpr ⟨by simp, List.append_subset.mpr ⟨?_, ih st _⟩⟩
        split <;> simp
      · split
        · dsimp only
          refine List.cons_subset.mpr ⟨by simp, List.cons_subset.mpr
            ⟨by simp, List.append_subset.mpr ⟨?_, ih st _⟩⟩⟩
          split <;> simp
        · dsimp only
          refine List.cons_subset.mpr ⟨by simp, List.cons_subset.mpr
            ⟨by simp, List.append_subset.mpr ⟨?_, ih st _⟩⟩⟩
          split <;> simp
        · dsimp only
          simp

/-- Membership form of `attemptStep_trace_sub`. -/
theorem attemptStep_trace_mem {env : Env} {product : Product} {index : Nat}
    {l : List Nat} {st : PMState} {cnt : Cnt} {e : Ev}
    (he : e ∈ (attemptStep env product index l st cnt).trace) :
    e = Ev.fetch product ∨ e = Ev.notify product ∨ e = Ev.sleep 10 := by
  have := attemptStep_trace_sub env product index l st cnt he
  simpa using this

/-- One failed attempt (a raised exception, or a missing title or image)
leaves the state untouched, consumes one fetch call, emits the fetch event
and the backoff when more attempts remain, and continues with the rest. -/
theorem attemptStep_fail_cons (env : Env) (product : Product) (index : Nat)
    (attempt : Nat) (rest : List Nat) (st : PMState) (cnt : Cnt)
    (hfail : env.fetch cnt.fetch = FetchOut.raise ∨
      ∃ t im, env.fetch cnt.fetch = FetchOut.ret t im ∧ (falsy t || falsy im) = true) :
    attemptStep env product index (attempt :: rest) st cnt =
      ⟨(attemptStep env product index rest st { cnt with fetch := cnt.fetch + 1 }).st,
       (attemptStep env product index rest st { cnt with fetch := cnt.fetch + 1 }).cnt,
       Ev.fetch product :: (if attempt < 2 then [Ev.sleep 10] else []) ++
         (attemptStep env product index rest st { cnt with fetch := cnt.fetch + 1 }).trace,
       (attemptStep env product index rest st { cnt with fetch := cnt.fetch + 1 }).posted⟩ := by
  rcases hfail with h | ⟨t, im, h, hfal⟩
  · simp only [attemptStep, h]
  · simp only [attemptStep, h, hfal, if_true]

/-- Against a Fetcher that fails on every call, the retry loop makes
exactly 3 attempts, with the 10-unit backoff between consecutive attempts
and none after the last, touches neither the durable nor the in-memory
state, and does not mark the item posted. -/
theorem attemptStep_fail3 (env : Env) (product : Product) (index : Nat)
    (st : PMState) (cnt : Cnt)
    (hf : ∀ n, env.fetch n = FetchOut.raise ∨
      ∃ t im, env.fetch n = FetchOut.ret t im ∧ (falsy t || falsy im) = true) :
    attemptStep env product index [0, 1, 2] st cnt =
      ⟨st, { cnt with fetch := cnt.fetch + 3 },
       [Ev.fetch product, Ev.sleep 10, Ev.fetch product, Ev.sleep 10, Ev.fetch product],
       false⟩ := by
  rw [attemptStep_fail_cons env product index 0 [1, 2] st cnt (hf _)]
  rw [attemptStep_fail_cons env product index 1 [2] st _ (hf _)]
  rw [attemptStep_fail_cons env product index 2 [] st _ (hf _)]
  simp only [attemptStep]
  norm_num

/-- As long as no notify call succeeds — the fetch may raise, return no
details, or succeed, and the notify may raise or return failure, in any
mixture — the retry loop leaves the state untouched, does not mark the item
posted, makes one fetch call per remaining attempt, and emits the 10-unit
backoff after exactly the non-final attempts. -/
theorem attemptStep_no_success (env : Env) (product : Product) (index : Nat)
    (hn : ∀ n, env.notify n ≠ NotifyOut.ret true) :
    ∀ (l : List Nat) (st : PMState) (cnt : Cnt),
      (attemptStep env product index l st cnt).st = st ∧
      (attemptStep env product index l st cnt).posted = false ∧
      (attemptStep env product index l st cnt).trace.count (Ev.fetch product) =
        l.length ∧
      (attemptStep env product index l st cnt).trace.count (Ev.sleep 10) =
        (l.filter (fun a => a < 2)).length := by
  intro l
  induction l with
  | nil =>
    intro st cnt
    exact ⟨rfl, rfl, rfl, rfl⟩
  | cons attempt rest ih =>
    intro st cnt
    simp only [attemptStep]
    split
    · dsimp only
      obtain ⟨h1, h2, h3, h4⟩ := ih st { cnt with fetch := cnt.fetch + 1 }
      refine ⟨h1, h2, ?_, ?_⟩ <;>
        by_cases hb : attempt < 2 <;>
        simp [hb, List.count_cons, List.count_append, List.filter_cons, h3, h4]
    · split
      · dsimp only
        obtain ⟨h1, h2, h3, h4⟩ := ih st { cnt with fetch := cnt.fetch + 1 }
        refine ⟨h1, h2, ?_, ?_⟩ <;>
          by_cases hb : attempt < 2 <;>
          simp [hb, List.count_cons, List.count_append, List.filter_cons, h3, h4]
      · split
        · dsimp only
          obtain ⟨h1, h2, h3, h4⟩ := ih st
            { fetch := cnt.fetch + 1, notify := cnt.notify + 1, read := cnt.read,
              write := cnt.write }
          refine ⟨h1, h2, ?_, ?_⟩ <;>
            by_cases hb : attempt < 2 <;>
            simp [hb, List.count_cons, List.count_append, List.filter_cons, h3, h4]
        · dsimp only
          obtain ⟨h1, h2, h3, h4⟩ := ih st
            { fetch := cnt.fetch + 1, notify := cnt.notify + 1, read := cnt.read,
              write := cnt.write }
          refine ⟨h1, h2, ?_, ?_⟩ <;>
            by_cases hb : attempt < 2 <;>
            simp [hb, List.count_cons, List.count_append, List.filter_cons, h3, h4]
        · rename_i hsucc
          exact absurd hsucc (hn _)

/-- No fetch or notify event of the retry loop targets a different item. -/
theorem attemptStep_count_ne {env : Env} {product p : Product} {index : Nat}
    {l : List Nat} {st : PMState} {cnt : Cnt} (hne : product ≠ p) :
    (attemptStep env product index l st cnt).trace.count (Ev.fetch p) = 0 := by
  rw [List.count_eq_zero]
  intro hmem
  rcases attemptStep_trace_mem hmem with h | h | h
  · exact hne (by simpa using h.symm)
  · simp at h
  · simp at h

/-- An element of the current products list is found by `list.index`. -/
theorem pyIndexOf_of_mem {ps : List Product} {p : Product} (h : p ∈ ps) :
    ∃ i, pyIndexOf ps p = some i := by
  induction ps with
  | nil => simp at h
  | cons q rest ih =>
    by_cases hq : q = p
    · exact ⟨0, by simp [pyIndexOf, hq]⟩
    · have hp : p ∈ rest := by
        rcases List.mem_cons.mp h with h | h
        · exact absurd h.symm hq
        · exact h
      obtain ⟨i, hi⟩ := ih hp
      exact ⟨i + 1, by simp [pyIndexOf, hq, hi]⟩

/-- Every fetch or notify event of a pass targets a member of the pending
set handed to it. -/
theorem processPending_trace_mem (env : Env) :
    ∀ (pending : List Product) (st : PMState) (cnt : Cnt) (q : Product),
      (Ev.fetch q ∈ (processPending env pending st cnt).trace ∨
       Ev.notify q ∈ (processPending env pending st cnt).trace) → q ∈ pending := by
  intro pending
  induction pending with
  | nil =>
    intro st cnt q hq
    simp [processPending] at hq
  | cons product rest ih =>
    intro st cnt q hq
    simp only [processPending] at hq
    cases hidx : pyIndexOf st.products product with
    | none =>
      rw [hidx] at hq
      simp at hq
    | some index =>
      rw [hidx] at hq
      simp only [List.mem_append, List.mem_cons] at hq
      rcases hq with hq | hq
      · rcases hq with hq | hq
        · rcases attemptStep_trace_mem hq with h | h | h
          · exact (Ev.fetch.injEq q product ▸ h) ▸ List.mem_cons_self _ _
          · simp at h
          · simp at h
        · rcases hq with hq | hq
          · simp at hq
          · exact List.mem_cons_of_mem _ (ih _ _ q (Or.inl hq))
      · rcases hq with hq | hq
        · rcases attemptStep_trace_mem hq with h | h | h
          · simp at h
          · have : q = product := by simpa using h
            exact this ▸ List.mem_cons_self _ _
          · simp at h
        · rcases hq with hq | hq
          · simp at hq
          · exact List.mem_cons_of_mem _ (ih _ _ q (Or.inr hq))

/-- Across a whole run — every pass, every reload — each fetched or
notified item had its completion flag false when its pass selected it. -/
theorem runPasses_trace_posted (env : Env) :
    ∀ (n : Nat) (st : PMState) (cnt : Cnt) (q : Product),
      (Ev.fetch q ∈ (runPasses env n st cnt).trace ∨
       Ev.notify q ∈ (runPasses env n st cnt).trace) → q.posted = false := by
  intro n
  induction n with
  | zero =>
    intro st cnt q h
    simp [runPasses] at h
  | succ m ih =>
    intro st cnt q h
    simp only [runPasses] at h
    have hfilter : ∀ hq : q ∈ st.products.filter (fun p => !p.posted),
        q.posted = false := fun hq => by
      have := (List.mem_filter.mp hq).2
      simpa using this
    by_cases hab : (processPending env (st.products.filter fun p => !p.posted) st
        cnt).aborted = true
    · rw [if_pos hab] at h
      exact hfilter (processPending_trace_mem env _ st cnt q h)
    · rw [if_neg hab] at h
      simp only [List.mem_append, List.mem_cons] at h
      rcases h with h | h
      · rcases h with h | h
        · exact hfilter (processPending_trace_mem env _ st cnt q (Or.inl h))
        · rcases h with h | h
          · simp at h
          · exact ih _ _ q (Or.inl h)
      · rcases h with h | h
        · exact hfilter (processPending_trace_mem env _ st cnt q (Or.inr h))
        · rcases h with h | h
          · simp at h
          · exact ih _ _ q (Or.inr h)

/-! ## Claim theorems: the progress engine (C1, C2, C3, C4) -/

/-- C1: an item whose completion flag is true in the engine's in-memory
store is never handed to the Fetcher or the Notifier — not in the current
pass, nor in any later pass of the run, nor after any store reload (the
model performs no external store mutation): passes select only items whose
flag is false at pass start. -/
theorem c1_completed_never_invoked (env : Env) (n : Nat) (st : PMState) (cnt : Cnt)
    (p : Product) (hp : p.posted = true) :
    Ev.fetch p ∉ (runPasses env n st cnt).trace ∧
    Ev.notify p ∉ (runPasses env n st cnt).trace := by
  constructor <;> intro hmem
  · have := runPasses_trace_posted env n st cnt p (Or.inl hmem)
    rw [hp] at this
    exact absurd this (by simp)
  · have := runPasses_trace_posted env n st cnt p (Or.inr hmem)
    rw [hp] at this
    exact absurd this (by simp)

/-- Witness for C1: a completed item in a one-item store is never fetched
over two full passes of a fully cooperative world. -/
theorem c1_completed_never_invoked_witness :
    Ev.fetch (⟨"https://www.amazon.in/dp/A", "LA", true⟩ : Product) ∉
      (runPasses envAllOk 2
        ⟨[rW1], [⟨"https://www.amazon.in/dp/A", "LA", true⟩]⟩ cnt0).trace :=
  (c1_completed_never_invoked envAllOk 2
    ⟨[rW1], [⟨"https://www.amazon.in/dp/A", "LA", true⟩]⟩ cnt0
    ⟨"https://www.amazon.in/dp/A", "LA", true⟩ rfl).1

/-- C2: against a Fetcher that always returns no title or no image, the
engine makes exactly 3 attempts for the item in one pass, waits the fixed
10-unit backoff between consecutive attempts (2 waits, none after the last
attempt), leaves the state — and hence the item's completion flag —
untouched, and does not mark the item posted. -/
theorem c2_retry_budget (env : Env) (product : Product) (index : Nat)
    (st : PMState) (cnt : Cnt)
    (hf : ∀ n, ∃ t im, env.fetch n = FetchOut.ret t im ∧ (falsy t || falsy im) = true) :
    attemptStep env product index [0, 1, 2] st cnt =
      ⟨st, { cnt with fetch := cnt.fetch + 3 },
       [Ev.fetch product, Ev.sleep 10, Ev.fetch product, Ev.sleep 10, Ev.fetch product],
       false⟩ :=
  attemptStep_fail3 env product index st cnt (fun n => Or.inr (hf n))

/-- Witness for C2 in a world whose Fetcher never extracts details. -/
theorem c2_retry_budget_witness :
    attemptStep envNoDetails pW1 0 [0, 1, 2] stW cnt0 =
      ⟨stW, { cnt0 with fetch := cnt0.fetch + 3 },
       [Ev.fetch pW1, Ev.sleep 10, Ev.fetch pW1, Ev.sleep 10, Ev.fetch pW1],
       false⟩ :=
  c2_retry_budget envNoDetails pW1 0 stW cnt0 (fun _ => ⟨none, none, rfl, rfl⟩)

/-- C3 counterexample: in a two-item store where the first item posts
successfully, the durable write succeeds, and the reload right after the
success fails (emptying the in-memory list), the `list.index` lookup for
the second item raises; that exception is raised during the second item's
processing, yet the outer loop terminates (`aborted`) and the second,
still-pending item is never processed.  The claim as stated is false. -/
theorem c3_counterexample :
    (runPasses envReloadFails 1 stW cnt0).aborted = true ∧
    Ev.fetch pW2 ∉ (runPasses envReloadFails 1 stW cnt0).trace ∧
    pW2 ∈ stW.products ∧ pW2.posted = false :=
  ⟨by decide, by decide, by decide, by decide⟩

/-- As long as no notify call succeeds, a pass over any pending set never
aborts, never changes the state, makes exactly 3 fetch attempts per
occurrence of each pending item, and emits the 10-unit backoff exactly
twice per item — whatever mixture of fetch exceptions, missing details,
notify exceptions and notify failures the world produces. -/
theorem processPending_no_success (env : Env) (st : PMState) (cnt : Cnt)
    (pending : List Product)
    (hn : ∀ n, env.notify n ≠ NotifyOut.ret true)
    (hmem : ∀ p ∈ pending, p ∈ st.products) :
    (processPending env pending st cnt).aborted = false ∧
    (processPending env pending st cnt).st = st ∧
    (∀ p, (processPending env pending st cnt).trace.count (Ev.fetch p) =
      3 * pending.count p) ∧
    (processPending env pending st cnt).trace.count (Ev.sleep 10) =
      2 * pending.length := by
  revert hmem
  induction pending generalizing cnt with
  | nil =>
    intro _
    exact ⟨rfl, rfl, fun p => rfl, rfl⟩
  | cons product rest ih =>
    intro hmem
    have hpmem : product ∈ st.products := hmem product (List.mem_cons_self _ _)
    obtain ⟨i, hi⟩ := pyIndexOf_of_mem hpmem
    obtain ⟨hst, hpost, hcf, hcs⟩ := attemptStep_no_success env product i hn [0, 1, 2] st cnt
    simp only [processPending, hi]
    rw [hst]
    obtain ⟨ha, hs2, hcf2, hcs2⟩ :=
      ih ((attemptStep env product i [0, 1, 2] st cnt).cnt)
        (fun p hp => hmem p (List.mem_cons_of_mem _ hp))
    refine ⟨ha, hs2, ?_, ?_⟩
    · intro p
      by_cases hqp : product = p
      · subst hqp
        simp only [List.count_append, List.count_cons, hcf, hcf2 product]
        simp [Nat.mul_add, Nat.add_comm, Nat.add_assoc]
      · have hzero := @attemptStep_count_ne env product p i [0, 1, 2] st cnt hqp
        simp only [List.count_append, List.count_cons, hzero, hcf2 p]
        simp [hqp]
    · simp only [List.count_append, List.count_cons, hcs, hcs2]
      simp [Nat.mul_add]
      omega

/-- C3 amended: exceptions raised inside an item's per-attempt processing
are caught and do not abort the loop — a raised fetch, a fetch returning no
details, a raised notify and a failed notify each consume one attempt of
the 3-attempt budget with the fixed backoff, after which the pass continues
to the next item and the idle cycle with the state untouched; an exception
inside the status update is caught by `update_product_status`'s own handler,
which reverts the in-memory flag and returns normally; but an exception
while locating the item's index (outside the per-attempt `try`) terminates
the outer loop, as the counterexample shows. -/
theorem c3_attempt_exceptions_contained (env : Env) (st : PMState) (cnt : Cnt)
    (pending : List Product)
    (hn : ∀ n, env.notify n ≠ NotifyOut.ret true)
    (hmem : ∀ p ∈ pending, p ∈ st.products) :
    (processPending env pending st cnt).aborted = false ∧
    (processPending env pending st cnt).st = st ∧
    (∀ p, (processPending env pending st cnt).trace.count (Ev.fetch p) =
      3 * pending.count p) ∧
    (processPending env pending st cnt).trace.count (Ev.sleep 10) =
      2 * pending.length ∧
    (∀ (env' : Env) (st' : PMState) (cnt' : Cnt) (index : Nat),
      env'.readOk cnt'.read = false ∨ env'.writeOk cnt'.write = false →
      (updateProductStatus env' st' cnt' index).1 =
        { st' with products := revertPosted st'.products index }) := by
  obtain ⟨ha, hs, hcf, hcs⟩ := processPending_no_success env st cnt pending hn hmem
  refine ⟨ha, hs, hcf, hcs, ?_⟩
  intro env' st' cnt' index h
  by_cases hr : env'.readOk cnt'.read = true
  · rcases h with h | h
    · exact absurd hr (by simp [h])
    · simp [updateProductStatus, hr, h]
  · simp [updateProductStatus, hr]

/-- Witness for C3's amended theorem, in a world that mixes all the failure
modes: for each item the first fetch raises, the second returns no title,
the third succeeds and the notify call raises — and the pass still walks
both items to completion without aborting, 3 fetch attempts each; the
status-update conjunct is instanced at a failing write. -/
theorem c3_attempt_exceptions_contained_witness :
    (processPending envMixedFail [pW1, pW2] stW cnt0).aborted = false ∧
    (processPending envMixedFail [pW1, pW2] stW cnt0).st = stW ∧
    (processPending envMixedFail [pW1, pW2] stW cnt0).trace.count (Ev.fetch pW1) =
      3 * ([pW1, pW2].count pW1) ∧
    (processPending envMixedFail [pW1, pW2] stW cnt0).trace.count (Ev.sleep 10) =
      2 * ([pW1, pW2] : List Product).length ∧
    (updateProductStatus envWriteFails stW cnt0 0).1 =
      { stW with products := revertPosted stW.products 0 } := by
  have h := c3_attempt_exceptions_contained envMixedFail stW cnt0 [pW1, pW2]
    (fun _ hcontra => NotifyOut.noConfusion hcontra) (by decide)
  exact ⟨h.1, h.2.1, h.2.2.1 pW1, h.2.2.2.1,
    h.2.2.2.2 envWriteFails stW cnt0 0 (Or.inr rfl)⟩

/-- A store whose every row survives loading loads to the positional map of
row conversion, so indices are preserved. -/
theorem loadProducts_eq_map {rows : List Row}
    (h : ∀ r ∈ rows, (!r.amazon_url.isNa && !r.affiliate_link.isNa) = true ∧
      cleanUrl r.amazon_url ≠ "") :
    loadProducts rows = rows.map (fun r => toProduct (cleanRow r)) := by
  rw [loadProducts]
  rw [List.filter_eq_self.mpr (fun r hr => (h r hr).1)]
  rw [List.filter_eq_self.mpr ?hcond]
  · rw [List.map_map]
    rfl
  case hcond =>
    intro r hr
    obtain ⟨r0, hr0, rfl⟩ := List.mem_map.mp hr
    show ((cleanRow r0).amazon_url.asStr != "") = true
    simp only [cleanRow, Cell.asStr, bne_iff_ne, ne_eq]
    exact (h r0 hr0).2

/-- C4: when the item's first attempt fetches and notifies successfully but
the durable write of the completion flag fails, the engine's handling of
that item ends with the durable store unchanged and the in-memory flag at
that index false — the item is not left marked completed in memory.  The
hypotheses: the status update's read succeeds, its write fails, the reload
after the success-handler succeeds, and every durable row survives loading
(so reload preserves positional indices). -/
theorem c4_failed_write_not_completed (env : Env) (product : Product) (index : Nat)
    (st : PMState) (cnt : Cnt) (T I : String)
    (hf : env.fetch cnt.fetch = FetchOut.ret (some T) (some I))
    (hT : falsy (some T) = false) (hI : falsy (some I) = false)
    (hn : env.notify cnt.notify = NotifyOut.ret true)
    (hr0 : env.readOk cnt.read = true)
    (hw : env.writeOk cnt.write = false)
    (hr1 : env.readOk (cnt.read + 1) = true)
    (hsurv : ∀ r ∈ st.durable, (!r.amazon_url.isNa && !r.affiliate_link.isNa) = true ∧
      cleanUrl r.amazon_url ≠ "")
    (hidx : index < st.durable.length)
    (hrow : (st.durable.getD index defRow).posted.getD false = false) :
    (attemptStep env product index [0, 1, 2] st cnt).posted = true ∧
    (attemptStep env product index [0, 1, 2] st cnt).st.durable = st.durable ∧
    (attemptStep env product index [0, 1, 2] st cnt).st.products.length =
      st.durable.length ∧
    ((attemptStep env product index [0, 1, 2] st cnt).st.products.getD index
      defProduct).posted = false := by
  simp only [attemptStep, hf, hT, hI, Bool.or_self, Bool.false_eq_true, if_false,
    updateProductStatus, reloadProducts, hn, hr0, hw, if_true, loadOutcome]
  simp only [hr1, if_true]
  rw [loadProducts_eq_map hsurv]
  refine ⟨trivial, trivial, by rw [List.length_map], ?_⟩
  rw [List.getD_eq_getElem _ _ (by rw [List.length_map]; exact hidx)]
  rw [List.getElem_map]
  rw [List.getD_eq_getElem _ _ hidx] at hrow
  simpa [toProduct, cleanRow] using hrow

/-- Witness for C4: a failed durable write over a two-item store leaves the
durable rows untouched and the item's in-memory flag false after the
handler's reload. -/
theorem c4_failed_write_not_completed_witness :
    (attemptStep envWriteFails pW1 0 [0, 1, 2] stW cnt0).posted = true ∧
    (attemptStep envWriteFails pW1 0 [0, 1, 2] stW cnt0).st.durable = stW.durable ∧
    (attemptStep envWriteFails pW1 0 [0, 1, 2] stW cnt0).st.products.length =
      stW.durable.length ∧
    ((attemptStep envWriteFails pW1 0 [0, 1, 2] stW cnt0).st.products.getD 0
      defProduct).posted = false :=
  c4_failed_write_not_completed envWriteFails pW1 0 stW cnt0 "T" "I" rfl rfl rfl rfl
    rfl rfl rfl (by decide) (by decide) (by decide)

end Affiliate
